import Mathlib

/-!
Shallow embedding of the `HighCapacityNeuralProcessor` React component
(src/app/page.tsx).  The component keeps a word registry (`words : string[]`),
two WebGL float textures (the 4096x4096 neuron-state grid and the 4096x1
word-data buffer), and exposes three state-changing entry points:
`addWord`, `processInput`, and `handleFileUpload` (plus the form handler
`handleAddWord`).  Texture texel values (JS numbers produced by
`Math.random()` and `charCodeAt(i)/255`) are modelled as rationals; the
stream of `Math.random()` draws is modelled as an explicit function
`Nat → ℚ` indexed by draw order.
-/

namespace HCNP

/-- Source constant `TEXTURE_SIZE = 4096` (page.tsx line 25). -/
def TEXTURE_SIZE : Nat := 4096

/-- Source constant `MAX_WORDS = 100000` (page.tsx line 26), the registry
capacity. -/
def MAX_WORDS : Nat := 100000

/-- A JS string, modelled as its list of characters. -/
abbrev Word := List Char

/-- Membership in the JS regex class `\w` = `[A-Za-z0-9_]`, used by the
bulk-ingestion pattern `/\b\w+\b/g` (page.tsx line 310).  `Char.isAlphanum`
is exactly ASCII `[A-Za-z0-9]`. -/
def isWordChar (c : Char) : Bool := c.isAlphanum || c = '_'

/-- Recursion worker for `tokenize`.  The `fuel` argument only makes the
recursion structural (so that the kernel can evaluate it); `fuel` starts at
the input length and never runs out, since each step consumes at least one
character of the input. -/
def tokenizeGo : Nat → List Char → List Word
  | _, [] => []
  | 0, _ :: _ => []
  | fuel + 1, c :: cs =>
    if isWordChar c then
      (c :: cs.takeWhile isWordChar) :: tokenizeGo fuel (cs.dropWhile isWordChar)
    else
      tokenizeGo fuel cs

/-- The token list produced by `text.match(/\b\w+\b/g)` (page.tsx line 310):
the maximal non-empty runs of `\w` characters of `text`, in source order
(with the global flag, `\b..\b` around `\w+` matches exactly these runs). -/
def tokenize (cs : List Char) : List Word := tokenizeGo cs.length cs

/-- A WebGL 2-D RGBA float texture.  `width`/`height` are the dimensions
passed to `texImage2D`; `data x y ch` is the value of channel `ch` of the
texel at column `x`, row `y`.  `data` is a total function; the texels of the
texture occupy `x < width`, `y < height`, `ch < 4`, and uploads only ever
rewrite points inside the uploaded region. -/
structure Texture where
  width : Nat
  height : Nat
  data : Nat → Nat → Nat → ℚ

/-- The component state the claims are about: the `words` registry plus the
two textures (`neuronStateTextureRef` and `wordDataTextureRef`). -/
structure PState where
  words : List Word
  neuron : Texture
  vocab : Texture

/-- JS `word.charCodeAt(i)` for an in-range index (the only use, page.tsx
line 265, is guarded by `i < word.length`; the `getD` default is never
reached there). -/
def charCodeAt (w : Word) (i : Nat) : Nat := (w.getD i ' ').toNat

/-- The `wordData` array built by `addWord` (page.tsx lines 262-266): a
fresh zero `Float32Array(TEXTURE_SIZE * 4)` whose entries `i * 4`
(channel 0 of cell `i`) are set to `word.charCodeAt(i) / 255` for
`i < word.length`.  Stores to indices at or beyond the array length are
silently ignored by a `Float32Array`, which the `x < TEXTURE_SIZE` guard
of `writeRow` reflects. -/
def encodeWord (w : Word) (x ch : Nat) : ℚ :=
  if ch = 0 ∧ x < w.length then (charCodeAt w x : ℚ) / 255 else 0

/-- Upload `gl.texSubImage2D(..., xoffset 0, yoffset row, TEXTURE_SIZE, 1,
...)` (page.tsx line 268), including the GL bounds check: when the region
fits the texture (`xoffset + width ≤ t.width` and `yoffset + height ≤
t.height`, here `TEXTURE_SIZE ≤ t.width` and `row + 1 ≤ t.height`), the
call replaces all four channels of the cells `x < TEXTURE_SIZE` of row
`row` with the encoded data and leaves every other point unchanged;
otherwise the call generates `INVALID_VALUE` and writes nothing at all.
On the 4096x1 vocabulary texture allocated at page.tsx line 193, the
upload therefore only ever takes effect for `row = 0`. -/
def writeRow (t : Texture) (row : Nat) (enc : Nat → Nat → ℚ) : Texture :=
  if TEXTURE_SIZE ≤ t.width ∧ row + 1 ≤ t.height then
    { t with data := fun x y ch =>
        if y = row ∧ x < TEXTURE_SIZE ∧ ch < 4 then enc x ch else t.data x y ch }
  else t

/-- Upload `gl.texSubImage2D(..., 0, 0, TEXTURE_SIZE, TEXTURE_SIZE, ...)` of
the `neuronData` array built by `processInput` (page.tsx lines 279-285): a
fresh zero `Float32Array(TEXTURE_SIZE * TEXTURE_SIZE * 4)` whose entries
`i * 4` (channel 0 of cell `i`) are set to the successive `Math.random()`
draws `r i`; the full texture region is replaced in one upload. -/
def reinitNeuron (t : Texture) (r : Nat → ℚ) : Texture :=
  { t with data := fun x y ch =>
      if x < TEXTURE_SIZE ∧ y < TEXTURE_SIZE ∧ ch < 4 then
        (if ch = 0 then r (y * TEXTURE_SIZE + x) else 0)
      else t.data x y ch }

/-- The state set up by the initialization effect (page.tsx lines 178-193):
empty registry; the neuron-state texture allocated at
`TEXTURE_SIZE × TEXTURE_SIZE` from a `Float32Array` every entry of which is
a `Math.random()` draw (`rn`); the word-data texture allocated at
`TEXTURE_SIZE × 1` from a `Float32Array(TEXTURE_SIZE * 4)` of draws (`rw`).
The JS arrays are laid out `(y * width + x) * 4 + ch`. -/
def initState (rn rw : Nat → ℚ) : PState where
  words := []
  neuron :=
    { width := TEXTURE_SIZE, height := TEXTURE_SIZE,
      data := fun x y ch => rn ((y * TEXTURE_SIZE + x) * 4 + ch) }
  vocab :=
    { width := TEXTURE_SIZE, height := 1,
      data := fun x y ch => if y = 0 then rw (x * 4 + ch) else 0 }

/-- The sentinel output string set for unknown input words
(page.tsx line 292). -/
def UnknownWord : Word := "Unknown word".toList

/-- Body of the `addWord` callback (page.tsx lines 255-271) as created by a
render whose `words` state was `captured`: the guard
`!words.includes(word) && words.length < MAX_WORDS` reads the captured
registry, the functional update `setWords(prev => [...prev, word])` appends
to the current registry, and the `texSubImage2D` call writes the encoding
at row `words.length` of the captured registry.  An event-handler call has
`captured = s.words` (see `addWord`); inside the async bulk-upload loop the
captured registry stays the one from the render that created the running
`handleFileUpload` closure (see `handleFileUpload`). -/
def addWordC (cap : Nat) (captured : List Word) (w : Word) (s : PState) :
    PState :=
  if w ∉ captured ∧ captured.length < cap then
    { s with
      words := s.words ++ [w],
      vocab := writeRow s.vocab captured.length (encodeWord w) }
  else s

/-- The `addWord` operation as invoked by a fresh event handler, where the
closure's captured `words` is the current registry.  The capacity is the
source's `MAX_WORDS` wherever the component uses it; it is kept as a
parameter because the spec fixes it at construction with default 100000. -/
def addWord (cap : Nat) (w : Word) (s : PState) : PState :=
  addWordC cap s.words w s

/-- The `handleAddWord` form handler (page.tsx lines 296-301): guard
`newWord && !words.includes(newWord)` (non-empty and not present), then
`addWord(newWord)` — note: no lower-casing on this path. -/
def handleAddWord (cap : Nat) (w : Word) (s : PState) : PState :=
  if w ≠ [] ∧ w ∉ s.words then addWord cap w s else s

/-- The `processInput` callback (page.tsx lines 273-294).  `index =
words.indexOf(word)`; if found, the neuron-state texture is fully rewritten
from fresh random draws `r` and the output is `words[(index + 1) %
words.length]`; otherwise the state is untouched and the output is the
`UnknownWord` sentinel.  Returns (new state, output word). -/
def processInput (r : Nat → ℚ) (w : Word) (s : PState) : PState × Word :=
  if w ∈ s.words then
    ({ s with neuron := reinitNeuron s.neuron r },
      s.words.getD ((s.words.indexOf w + 1) % s.words.length) [])
  else
    (s, UnknownWord)

/-- The `handleFileUpload` callback (page.tsx lines 303-327), happy path:
`wordsFromFile = text.toLowerCase().match(/\b\w+\b/g)`, `totalWords =
Math.min(wordsFromFile.length, MAX_WORDS - words.length)`, then a loop
calling `addWord(wordsFromFile[i])` for `i < totalWords`.  The loop awaits
between iterations, but the `addWord` binding it calls is the one captured
when the running handler closure was created, whose `words` is the registry
at upload start (`s.words`); React's `useCallback` does not update a
binding inside an already-running async function.  Hence every iteration
uses `captured = s.words`. -/
def handleFileUpload (cap : Nat) (text : List Char) (s : PState) : PState :=
  let wordsFromFile := tokenize (text.map Char.toLower)
  let totalWords := min wordsFromFile.length (cap - s.words.length)
  (wordsFromFile.take totalWords).foldl
    (fun st t => addWordC cap s.words t st) s

/-- One user-visible state-mutating event: a form add, a bulk file upload,
or a process request (with its stream of random draws). -/
inductive Op where
  | add (w : Word)
  | upload (text : List Char)
  | process (w : Word) (r : Nat → ℚ)

/-- Effect of one event on the component state. -/
def step (cap : Nat) (s : PState) : Op → PState
  | Op.add w => handleAddWord cap w s
  | Op.upload text => handleFileUpload cap text s
  | Op.process w r => (processInput r w s).1

/-- Effect of a sequence of events. -/
def run (cap : Nat) : PState → List Op → PState
  | s, [] => s
  | s, op :: ops => run cap (step cap s op) ops

/-! Helper lemmas shared by several developments below. -/

/-- Reduction of `step` on a form add. -/
theorem step_add (cap : Nat) (s : PState) (w : Word) :
    step cap s (Op.add w) = handleAddWord cap w s := rfl

/-- Reduction of `step` on a bulk upload. -/
theorem step_upload (cap : Nat) (s : PState) (text : List Char) :
    step cap s (Op.upload text) = handleFileUpload cap text s := rfl

/-- Reduction of `step` on a process request. -/
theorem step_process (cap : Nat) (s : PState) (w : Word) (r : Nat → ℚ) :
    step cap s (Op.process w r) = (processInput r w s).1 := rfl

/-- Every token extracted by the tokenizer is a sublist of the input. -/
theorem tokenizeGo_sublist :
    ∀ (fuel : Nat) (cs : List Char), ∀ t ∈ tokenizeGo fuel cs, t.Sublist cs := by
  intro fuel
  induction fuel with
  | zero =>
    intro cs t ht
    cases cs <;> simp [tokenizeGo] at ht
  | succ n ih =>
    intro cs t ht
    cases cs with
    | nil => simp [tokenizeGo] at ht
    | cons c cs =>
      by_cases h : isWordChar c
      · rw [tokenizeGo, if_pos h] at ht
        rcases List.mem_cons.mp ht with rfl | ht
        · exact List.Sublist.cons₂ c (List.takeWhile_sublist _)
        · exact ((ih _ t ht).trans (List.dropWhile_sublist _)).cons c
      · rw [tokenizeGo, if_neg h] at ht
        exact (ih _ t ht).cons c

/-- Every token of `tokenize cs` is a sublist of `cs`. -/
theorem tokenize_sublist (cs : List Char) : ∀ t ∈ tokenize cs, t.Sublist cs :=
  tokenizeGo_sublist cs.length cs

/-- Behaviour of the bulk-upload fold on the registry: it appends some list
`ext` of tokens, each drawn from the fed list and absent from the captured
registry, and at most one per fed token. -/
theorem foldl_addWordC_words (cap : Nat) (captured : List Word) :
    ∀ (L : List Word) (s : PState),
      ∃ ext,
        (L.foldl (fun st t => addWordC cap captured t st) s).words
            = s.words ++ ext
          ∧ ext.length ≤ L.length
          ∧ ∀ t ∈ ext, t ∉ captured ∧ t ∈ L := by
  intro L
  induction L with
  | nil => exact fun s => ⟨[], by simp⟩
  | cons t ts ih =>
    intro s
    obtain ⟨ext, h1, h2, h3⟩ := ih (addWordC cap captured t s)
    by_cases hg : t ∉ captured ∧ captured.length < cap
    · refine ⟨t :: ext, ?_, ?_, ?_⟩
      · rw [List.foldl_cons, h1]
        simp [addWordC, if_pos hg]
      · simpa using Nat.succ_le_succ h2
      · intro u hu
        rcases List.mem_cons.mp hu with rfl | hu
        · exact ⟨hg.1, List.mem_cons_self _ _⟩
        · exact ⟨(h3 u hu).1, List.mem_cons_of_mem _ (h3 u hu).2⟩
    · refine ⟨ext, ?_, Nat.le_succ_of_le h2, ?_⟩
      · rw [List.foldl_cons, h1]
        simp [addWordC, if_neg hg]
      · exact fun u hu => ⟨(h3 u hu).1, List.mem_cons_of_mem _ (h3 u hu).2⟩

/-- With an empty captured registry and positive capacity, the bulk-upload
fold appends every fed token. -/
theorem foldl_addWordC_nil_captured (cap : Nat) (hcap : 0 < cap) :
    ∀ (L : List Word) (s : PState),
      (L.foldl (fun st t => addWordC cap [] t st) s).words = s.words ++ L := by
  intro L
  induction L with
  | nil => simp
  | cons t ts ih =>
    intro s
    rw [List.foldl_cons, ih]
    simp [addWordC, hcap]

/-- Processing never changes the registry. -/
theorem processInput_fst_words (r : Nat → ℚ) (w : Word) (s : PState) :
    (processInput r w s).1.words = s.words := by
  unfold processInput
  split <;> rfl

/-- One event never lets the registry outgrow the capacity. -/
theorem step_words_length_le (cap : Nat) (s : PState) (op : Op)
    (hs : s.words.length ≤ cap) : (step cap s op).words.length ≤ cap := by
  cases op with
  | add w =>
    show (handleAddWord cap w s).words.length ≤ cap
    unfold handleAddWord addWord addWordC
    split
    · split
      · next hg =>
        simp only [List.length_append, List.length_cons, List.length_nil]
        omega
      · exact hs
    · exact hs
  | upload text =>
    show (handleFileUpload cap text s).words.length ≤ cap
    obtain ⟨ext, h1, h2, _⟩ :=
      foldl_addWordC_words cap s.words
        ((tokenize (text.map Char.toLower)).take
          (min (tokenize (text.map Char.toLower)).length
            (cap - s.words.length))) s
    have h1' : (handleFileUpload cap text s).words = s.words ++ ext := h1
    have h3 := h2.trans (List.length_take_le _ _)
    have h4 := Nat.min_le_right (tokenize (text.map Char.toLower)).length
      (cap - s.words.length)
    rw [h1']
    simp only [List.length_append]
    omega
  | process w r =>
    show (processInput r w s).1.words.length ≤ cap
    rw [processInput_fst_words]
    exact hs

/-- In a duplicate-free list, `indexOf` recovers the position of an element
read off by index. -/
theorem nodup_indexOf_eq {α : Type} [BEq α] [LawfulBEq α] :
    ∀ (l : List α) (i : Nat) (w : α), l.Nodup → l[i]? = some w →
      l.indexOf w = i := by
  intro l
  induction l with
  | nil => intro i w _ hi; simp at hi
  | cons a l ih =>
    intro i w hnd hi
    cases i with
    | zero =>
      simp only [List.getElem?_cons_zero, Option.some_inj] at hi
      subst hi
      simp [List.indexOf_cons]
    | succ n =>
      simp only [List.getElem?_cons_succ] at hi
      obtain ⟨hlt, hget⟩ := List.getElem?_eq_some_iff.mp hi
      have hwl : w ∈ l := hget ▸ List.getElem_mem hlt
      have hne : (a == w) = false := by
        rcases List.nodup_cons.mp hnd with ⟨hal, _⟩
        exact beq_eq_false_iff_ne.mpr fun he => hal (he ▸ hwl)
      rw [List.indexOf_cons, hne, ih n w (List.nodup_cons.mp hnd).2 hi]
      rfl

/-! Concrete fixtures used by witnesses and counterexamples. -/

/-- Constant-zero random trace (0 is a possible `Math.random()` value). -/
def zeroR : Nat → ℚ := fun _ => 0

/-- Constant one-half random trace. -/
def half : Nat → ℚ := fun _ => 1 / 2

/-- Freshly initialized component state, built from the all-zero traces. -/
def s0 : PState := initState zeroR zeroR

/-- State whose registry holds the three tokens a, b, c. -/
def s3 : PState := { s0 with words := [['a'], ['b'], ['c']] }

/-- Same registry as `s3` but with different texture contents. -/
def s3b : PState := { initState half zeroR with words := [['a'], ['b'], ['c']] }

/-- State whose registry holds the single token a. -/
def s1 : PState := { s0 with words := [['a']] }

/-- The form input Hello, which is not lower-cased. -/
def hWord : Word := "Hello".toList

/-- A two-token source text containing the same token twice. -/
def aaChars : List Char := "a a".toList

/-- A four-token source text with pairwise distinct tokens. -/
def xyzwChars : List Char := "x y z w".toList

/-! Claim developments. -/

/-- C1: for a registry with tokens `t_0, ..., t_{n-1}` and a word `w` present
at insertion index `i`, `processToken w` returns the token at index
`(i + 1) % n`. -/
theorem processToken_known_returns_cyclic_successor
    (s : PState) (w : Word) (i : Nat) (r : Nat → ℚ)
    (hnd : s.words.Nodup) (hi : s.words[i]? = some w) :
    s.words[(i + 1) % s.words.length]? = some ((processInput r w s).2) := by
  obtain ⟨hlt, hget⟩ := List.getElem?_eq_some_iff.mp hi
  have hmem : w ∈ s.words := hget ▸ List.getElem_mem hlt
  have hidx : s.words.indexOf w = i := nodup_indexOf_eq s.words i w hnd hi
  have hlen : 0 < s.words.length := Nat.lt_of_le_of_lt (Nat.zero_le _) hlt
  have hmod : (i + 1) % s.words.length < s.words.length := Nat.mod_lt _ hlen
  unfold processInput
  rw [if_pos hmem]
  simp only [hidx, List.getD_eq_getElem?_getD, List.getElem?_eq_getElem hmod,
    Option.getD_some]

/-- C1 witness: with tokens `[a, b, c]`, `processToken c` (index 2) returns
the token at index `(2 + 1) % 3 = 0`, namely `a`. -/
theorem processToken_known_returns_cyclic_successor_witness :
    s3.words.Nodup ∧ s3.words[2]? = some ['c']
      ∧ s3.words[(2 + 1) % s3.words.length]? = some ((processInput zeroR ['c'] s3).2)
      ∧ (processInput zeroR ['c'] s3).2 = ['a'] :=
  ⟨by decide, by decide,
    processToken_known_returns_cyclic_successor s3 ['c'] 2 zeroR (by decide)
      (by decide),
    by decide⟩

/-- C2: for a word not present in the registry, `processToken` returns the
`UnknownWord` sentinel and leaves the neuron-state texture unchanged. -/
theorem processToken_unknown_sentinel_grid_unchanged
    (s : PState) (w : Word) (r : Nat → ℚ) (h : w ∉ s.words) :
    (processInput r w s).2 = UnknownWord
      ∧ (processInput r w s).1.neuron = s.neuron := by
  unfold processInput
  rw [if_neg h]
  exact ⟨rfl, rfl⟩

/-- C2 witness: processing the unknown word `z` on the `[a, b, c]` registry
returns the sentinel and keeps the activation grid. -/
theorem processToken_unknown_sentinel_grid_unchanged_witness :
    (['z'] ∉ s3.words)
      ∧ (processInput half ['z'] s3).2 = UnknownWord
      ∧ (processInput half ['z'] s3).1.neuron = s3.neuron :=
  ⟨by decide,
    (processToken_unknown_sentinel_grid_unchanged s3 ['z'] half (by decide)).1,
    (processToken_unknown_sentinel_grid_unchanged s3 ['z'] half (by decide)).2⟩

/-- C10: the output token of `processToken` is a function of the registry and
the input word alone; the texture contents and the random draws of the grid
reset have no influence. -/
theorem processToken_output_depends_only_on_registry
    (s₁ s₂ : PState) (w : Word) (r₁ r₂ : Nat → ℚ) (h : s₁.words = s₂.words) :
    (processInput r₁ w s₁).2 = (processInput r₂ w s₂).2 := by
  unfold processInput
  rw [h]
  by_cases hw : w ∈ s₂.words
  · rw [if_pos hw, if_pos hw]
  · rw [if_neg hw, if_neg hw]

/-- Adding a word whose guard fails (already present, or registry at
capacity) is a complete no-op. -/
theorem addWord_noop (cap : Nat) (w : Word) (s : PState)
    (h : ¬ (w ∉ s.words ∧ s.words.length < cap)) : addWord cap w s = s := by
  unfold addWord addWordC
  exact if_neg h

/-- C3: starting from the freshly initialized (empty) registry, no sequence
of form-add, bulk-upload, and process events pushes the registry size past
the capacity; an add or an upload arriving with the registry at capacity
leaves the registry unchanged (silent drop); the component instantiates the
capacity with `MAX_WORDS = 100000`. -/
theorem registry_capacity_never_exceeded :
    (∀ (cap : Nat) (rn rw : Nat → ℚ) (ops : List Op),
        (run cap (initState rn rw) ops).words.length ≤ cap)
      ∧ (∀ (cap : Nat) (s : PState) (w : Word), cap ≤ s.words.length →
          (handleAddWord cap w s).words = s.words)
      ∧ (∀ (cap : Nat) (s : PState) (text : List Char), cap ≤ s.words.length →
          (handleFileUpload cap text s).words = s.words)
      ∧ MAX_WORDS = 100000 := by
  refine ⟨?_, ?_, ?_, rfl⟩
  · intro cap rn rw ops
    have h : ∀ (ops : List Op) (s : PState), s.words.length ≤ cap →
        (run cap s ops).words.length ≤ cap := by
      intro ops
      induction ops with
      | nil => exact fun s hs => hs
      | cons op ops ih =>
        exact fun s hs => ih _ (step_words_length_le cap s op hs)
    exact h ops _ (by simp [initState])
  · intro cap s w hcap
    unfold handleAddWord addWord addWordC
    split
    · rw [if_neg fun hg => absurd hg.2 (Nat.not_lt.mpr hcap)]
    · rfl
  · intro cap s text hcap
    show (((tokenize (text.map Char.toLower)).take
        (min (tokenize (text.map Char.toLower)).length
          (cap - s.words.length))).foldl
        (fun st t => addWordC cap s.words t st) s).words = s.words
    rw [Nat.sub_eq_zero_of_le hcap, Nat.min_zero, List.take_zero,
      List.foldl_nil]

/-- C3 witness: with capacity 1, the run `[add a, add b]` tops out at one
token, and both an add and an upload on a full registry change nothing. -/
theorem registry_capacity_never_exceeded_witness :
    (run 1 (initState zeroR zeroR) [Op.add ['a'], Op.add ['b']]).words.length ≤ 1
      ∧ 1 ≤ s1.words.length
      ∧ (handleAddWord 1 ['b'] s1).words = s1.words
      ∧ (handleFileUpload 1 ['b'] s1).words = s1.words :=
  ⟨registry_capacity_never_exceeded.1 1 zeroR zeroR [Op.add ['a'], Op.add ['b']],
    by decide,
    registry_capacity_never_exceeded.2.1 1 s1 ['b'] (by decide),
    registry_capacity_never_exceeded.2.2.1 1 s1 ['b'] (by decide)⟩

/-- C4: adding the same token twice leaves the registry size exactly as
after adding it once; when the token is already present or the registry is
at capacity, the add is a no-op on the state. -/
theorem addToken_idempotent_on_registry (cap : Nat) (w : Word) (s : PState) :
    (addWord cap w (addWord cap w s)).words.length
        = (addWord cap w s).words.length
      ∧ ((w ∈ s.words ∨ cap ≤ s.words.length) → addWord cap w s = s) := by
  constructor
  · by_cases hg : w ∉ s.words ∧ s.words.length < cap
    · have h1 : (addWord cap w s).words = s.words ++ [w] := by
        unfold addWord addWordC
        rw [if_pos hg]
      have hw : w ∈ (addWord cap w s).words := by
        rw [h1]
        exact List.mem_append_right _ (List.mem_singleton_self w)
      rw [addWord_noop cap w _ fun hg2 => hg2.1 hw]
    · rw [addWord_noop cap w s hg, addWord_noop cap w s hg]
  · intro hg
    refine addWord_noop cap w s ?_
    rintro ⟨hmem, hlen⟩
    rcases hg with hg | hg
    · exact hmem hg
    · omega

/-- C4 witness: on a registry `[a]`, adding a once is a no-op and adding a
twice preserves the size reached after one add. -/
theorem addToken_idempotent_on_registry_witness :
    (addWord 2 ['a'] (addWord 2 ['a'] s1)).words.length
        = (addWord 2 ['a'] s1).words.length
      ∧ (['a'] ∈ s1.words ∨ 2 ≤ s1.words.length)
      ∧ addWord 2 ['a'] s1 = s1 :=
  ⟨(addToken_idempotent_on_registry 2 ['a'] s1).1,
    Or.inl (by decide),
    (addToken_idempotent_on_registry 2 ['a'] s1).2 (Or.inl (by decide))⟩

/-- C5 counterexample: processing the known word a with every random draw
equal to 1/2, channel 1 of cell (0,0) ends up holding 0, which is none of
the drawn samples — the grid is not refilled with uniform-random samples in
every channel (only channel 0 receives draws; channels 1 to 3 are zeroed,
page.tsx line 282 writes only `neuronData[i * 4]`). -/
theorem processToken_reset_not_random_in_every_channel :
    (['a'] ∈ s3.words)
      ∧ ¬ ∃ n, (processInput half ['a'] s3).1.neuron.data 0 0 1 = half n := by
  refine ⟨by decide, ?_⟩
  rintro ⟨n, hn⟩
  have h0 : (processInput half ['a'] s3).1.neuron.data 0 0 1 = 0 := by decide
  rw [h0] at hn
  unfold half at hn
  norm_num at hn

/-- C5 amended: for a known word, `processToken` overwrites the whole
in-bounds activation grid in one upload — channel 0 of every cell receives
a fresh random draw and channels 1 to 3 receive 0 — and the new values
depend neither on the input word nor on the prior grid contents. -/
theorem processToken_known_grid_reset (s : PState) (w : Word) (r : Nat → ℚ)
    (h : w ∈ s.words) :
    ∀ x y ch, x < TEXTURE_SIZE → y < TEXTURE_SIZE → ch < 4 →
      (processInput r w s).1.neuron.data x y ch
        = if ch = 0 then r (y * TEXTURE_SIZE + x) else 0 := by
  intro x y ch hx hy hch
  unfold processInput
  rw [if_pos h]
  show (reinitNeuron s.neuron r).data x y ch = _
  unfold reinitNeuron
  exact if_pos ⟨hx, hy, hch⟩

/-- C5 amended witness: processing the known word a, cell (0,0) gets the
draw 1/2 in channel 0 and the constant 0 in channel 1. -/
theorem processToken_known_grid_reset_witness :
    (['a'] ∈ s3.words)
      ∧ (processInput half ['a'] s3).1.neuron.data 0 0 0 = half 0
      ∧ (processInput half ['a'] s3).1.neuron.data 0 0 1 = 0 :=
  ⟨by decide,
    by simpa using
      processToken_known_grid_reset s3 ['a'] half (by decide) 0 0 0
        (by decide) (by decide) (by decide),
    by simpa using
      processToken_known_grid_reset s3 ['a'] half (by decide) 0 0 1
        (by decide) (by decide) (by decide)⟩

/-- C6 counterexample: registering b on the registry `[a]` appends it at
insertion index 1, but the `texSubImage2D` at yoffset 1 exceeds the 4096x1
vocabulary texture, so the upload is rejected and the buffer is left
entirely unchanged — row 1, cell 0, channel 0 still holds the allocation
value 0, not the encoding 98/255 the claim requires. -/
theorem addToken_second_write_dropped :
    (addWord MAX_WORDS ['b'] s1).words = s1.words ++ [['b']]
      ∧ (addWord MAX_WORDS ['b'] s1).vocab = s1.vocab
      ∧ (addWord MAX_WORDS ['b'] s1).vocab.data 0 1 0 = 0
      ∧ (charCodeAt ['b'] 0 : ℚ) / 255 ≠ 0 := by
  refine ⟨by decide, rfl, by decide, ?_⟩
  have h : charCodeAt ['b'] 0 = 98 := rfl
  rw [h]
  norm_num

/-- C6 amended: registering a new word `w` (absent, registry below capacity)
appends it at insertion index `i = size` and attempts to upload its
encoding — character code over 255 in channel 0 of successive cells, zero
elsewhere — at row `i` of the vocabulary buffer.  When the uploaded region
fits the texture the write replaces exactly row `i` and leaves every other
row untouched; otherwise — in particular for every `i ≥ 1` on the
allocated 4096x1 buffer — the upload is rejected and the buffer is left
entirely unchanged. -/
theorem addToken_vocab_row_write_bounds (cap : Nat) (s : PState) (w : Word)
    (hnew : w ∉ s.words) (hcap : s.words.length < cap) :
    (addWord cap w s).words = s.words ++ [w]
      ∧ (TEXTURE_SIZE ≤ s.vocab.width → s.words.length + 1 ≤ s.vocab.height →
          (∀ x ch, x < TEXTURE_SIZE → ch < 4 →
            (addWord cap w s).vocab.data x s.words.length ch
              = if ch = 0 ∧ x < w.length then (charCodeAt w x : ℚ) / 255
                else 0)
          ∧ (∀ x y ch, y ≠ s.words.length →
              (addWord cap w s).vocab.data x y ch = s.vocab.data x y ch))
      ∧ (¬ (TEXTURE_SIZE ≤ s.vocab.width ∧ s.words.length + 1 ≤ s.vocab.height)
          → (addWord cap w s).vocab = s.vocab) := by
  have hg : w ∉ s.words ∧ s.words.length < cap := ⟨hnew, hcap⟩
  have hadd : addWord cap w s
      = { s with
          words := s.words ++ [w],
          vocab := writeRow s.vocab s.words.length (encodeWord w) } := by
    unfold addWord addWordC
    rw [if_pos hg]
  refine ⟨by rw [hadd], ?_, ?_⟩
  · intro hw hh
    have hfit : writeRow s.vocab s.words.length (encodeWord w)
        = { s.vocab with data := fun x y ch =>
            (if y = s.words.length ∧ x < TEXTURE_SIZE ∧ ch < 4 then
              encodeWord w x ch else s.vocab.data x y ch) } := by
      unfold writeRow
      rw [if_pos ⟨hw, hh⟩]
    constructor
    · intro x ch hx hch
      rw [hadd, hfit]
      exact if_pos ⟨rfl, hx, hch⟩
    · intro x y ch hy
      rw [hadd, hfit]
      exact if_neg fun hc => hy hc.1
  · intro hfail
    rw [hadd]
    show writeRow s.vocab s.words.length (encodeWord w) = s.vocab
    unfold writeRow
    exact if_neg hfail

/-- C6 amended witness: adding a to the empty registry (index 0, region in
bounds on the 4096x1 buffer) writes its character code into channel 0 of
cell 0 of row 0 and leaves row 1 alone; adding b to the registry `[a]`
(index 1, region out of bounds) leaves the vocabulary buffer unchanged. -/
theorem addToken_vocab_row_write_bounds_witness :
    ((addWord MAX_WORDS ['a'] s0).words = s0.words ++ [['a']]
      ∧ (addWord MAX_WORDS ['a'] s0).vocab.data 0 0 0
          = (charCodeAt ['a'] 0 : ℚ) / 255
      ∧ (addWord MAX_WORDS ['a'] s0).vocab.data 0 1 0 = s0.vocab.data 0 1 0)
      ∧ (addWord MAX_WORDS ['b'] s1).vocab = s1.vocab :=
  ⟨⟨(addToken_vocab_row_write_bounds MAX_WORDS s0 ['a'] (by decide)
        (by decide)).1,
    by simpa using
      ((addToken_vocab_row_write_bounds MAX_WORDS s0 ['a'] (by decide)
          (by decide)).2.1 (by decide) (by decide)).1 0 0 (by decide)
        (by decide),
    ((addToken_vocab_row_write_bounds MAX_WORDS s0 ['a'] (by decide)
        (by decide)).2.1 (by decide) (by decide)).2 0 1 0 (by decide)⟩,
    (addToken_vocab_row_write_bounds MAX_WORDS s1 ['b'] (by decide)
      (by decide)).2.2 (by decide)⟩

/-- C7 counterexample: the vocabulary buffer is allocated at 4096 x 1 cells
(page.tsx line 193), which is not one slot per unit of the 100000-token
capacity. -/
theorem vocab_buffer_slot_count_mismatch :
    s0.vocab.width = 4096 ∧ s0.vocab.height = 1
      ∧ s0.vocab.width * s0.vocab.height ≠ MAX_WORDS := by
  refine ⟨rfl, rfl, by decide⟩

/-- C7 amended: after allocation the activation grid measures
`TEXTURE_SIZE × TEXTURE_SIZE` (4096 x 4096) and the vocabulary buffer
`TEXTURE_SIZE × 1` (4096 cells — fewer than the 100000-token capacity),
and, provided every random draw lies in [0,1), every channel of every
in-bounds cell of both textures lies in [0,1). -/
theorem allocate_dimensions_and_unit_range (rn rw : Nat → ℚ)
    (hrn : ∀ n, 0 ≤ rn n ∧ rn n < 1) (hrw : ∀ n, 0 ≤ rw n ∧ rw n < 1) :
    ((initState rn rw).neuron.width = TEXTURE_SIZE
      ∧ (initState rn rw).neuron.height = TEXTURE_SIZE
      ∧ (initState rn rw).vocab.width = TEXTURE_SIZE
      ∧ (initState rn rw).vocab.height = 1)
      ∧ (∀ x y ch, x < TEXTURE_SIZE → y < TEXTURE_SIZE → ch < 4 →
          0 ≤ (initState rn rw).neuron.data x y ch
            ∧ (initState rn rw).neuron.data x y ch < 1)
      ∧ (∀ x y ch, x < TEXTURE_SIZE → y < 1 → ch < 4 →
          0 ≤ (initState rn rw).vocab.data x y ch
            ∧ (initState rn rw).vocab.data x y ch < 1) := by
  refine ⟨⟨rfl, rfl, rfl, rfl⟩, ?_, ?_⟩
  · intro x y ch _ _ _
    exact hrn ((y * TEXTURE_SIZE + x) * 4 + ch)
  · intro x y ch _ hy _
    have hy0 : y = 0 := Nat.lt_one_iff.mp hy
    subst hy0
    exact hrw (x * 4 + ch)

/-- C7 amended witness: with the all-zero random trace, the dimensions are
as stated and the sampled texel (0,0) channel 0 lies in [0,1). -/
theorem allocate_dimensions_and_unit_range_witness :
    (∀ n, 0 ≤ zeroR n ∧ zeroR n < 1)
      ∧ (s0.neuron.width = TEXTURE_SIZE ∧ s0.neuron.height = TEXTURE_SIZE
          ∧ s0.vocab.width = TEXTURE_SIZE ∧ s0.vocab.height = 1)
      ∧ (0 ≤ s0.neuron.data 0 0 0 ∧ s0.neuron.data 0 0 0 < 1)
      ∧ (0 ≤ s0.vocab.data 0 0 0 ∧ s0.vocab.data 0 0 0 < 1) :=
  ⟨fun _ => ⟨le_refl 0, zero_lt_one⟩,
    (allocate_dimensions_and_unit_range zeroR zeroR
        (fun _ => ⟨le_refl 0, zero_lt_one⟩)
        (fun _ => ⟨le_refl 0, zero_lt_one⟩)).1,
    (allocate_dimensions_and_unit_range zeroR zeroR
        (fun _ => ⟨le_refl 0, zero_lt_one⟩)
        (fun _ => ⟨le_refl 0, zero_lt_one⟩)).2.1 0 0 0
      (by decide) (by decide) (by decide),
    (allocate_dimensions_and_unit_range zeroR zeroR
        (fun _ => ⟨le_refl 0, zero_lt_one⟩)
        (fun _ => ⟨le_refl 0, zero_lt_one⟩)).2.2 0 0 0
      (by decide) (by decide) (by decide)⟩

/-- C10 witness: two states with the same registry but different textures and
different random traces produce the same output token. -/
theorem processToken_output_depends_only_on_registry_witness :
    s3.words = s3b.words
      ∧ (processInput zeroR ['b'] s3).2 = (processInput half ['b'] s3b).2
      ∧ (processInput zeroR ['b'] s3).2 = ['c'] :=
  ⟨by decide,
    processToken_output_depends_only_on_registry s3 s3b ['b'] zeroR half
      (by decide),
    by decide⟩

/-- C8 counterexample: the form handler stores Hello without lower-casing
it, and one bulk upload of the source "a a" appends the token a twice —
the running upload loop's `addWord` closure checks membership against the
registry captured at upload start, so within-upload duplicates pass the
`!words.includes(word)` guard. -/
theorem registry_normalization_uniqueness_counterexample :
    ((handleAddWord MAX_WORDS hWord s0).words = [hWord]
      ∧ hWord.map Char.toLower ≠ hWord)
      ∧ ((handleFileUpload MAX_WORDS aaChars s0).words = [['a'], ['a']]
        ∧ ¬ (handleFileUpload MAX_WORDS aaChars s0).words.Nodup) := by
  exact ⟨⟨by decide, by decide⟩, by decide, by decide⟩

/-- C8 amended: the registry is append-only (tokens keep their insertion
index, it never shrinks and never reorders) under every event, every
appended token is absent from the registry as the event starts, and every
token appended by a bulk upload is the lower-casing of a fragment of the
uploaded text; form adds store the word exactly as typed (no
normalization), and a single bulk upload may append a token duplicated in
its source more than once. -/
theorem registry_append_only_evolution :
    (∀ (cap : Nat) (s : PState) (op : Op),
        ∃ ext, (step cap s op).words = s.words ++ ext
          ∧ (∀ t ∈ ext, t ∉ s.words)
          ∧ (∀ text, op = Op.upload text →
              ∀ t ∈ ext, ∃ t₀ : List Char, t₀.Sublist text ∧ t = t₀.map Char.toLower))
      ∧ (∀ (cap : Nat) (s : PState) (ops : List Op),
          ∃ ext, (run cap s ops).words = s.words ++ ext) := by
  have hstep : ∀ (cap : Nat) (s : PState) (op : Op),
      ∃ ext, (step cap s op).words = s.words ++ ext
        ∧ (∀ t ∈ ext, t ∉ s.words)
        ∧ (∀ text, op = Op.upload text →
            ∀ t ∈ ext, ∃ t₀ : List Char, t₀.Sublist text ∧ t = t₀.map Char.toLower) := by
    intro cap s op
    cases op with
    | add w =>
      rw [step_add]
      unfold handleAddWord
      split
      · next hguard =>
        by_cases hg : w ∉ s.words ∧ s.words.length < cap
        · refine ⟨[w], ?_, ?_, ?_⟩
          · unfold addWord addWordC
            rw [if_pos hg]
          · intro t ht
            rw [List.mem_singleton.mp ht]
            exact hguard.2
          · intro text habs
            simp at habs
        · exact ⟨[], by rw [addWord_noop cap w s hg]; simp, by simp,
            fun text habs => by simp at habs⟩
      · exact ⟨[], by simp, by simp, fun text habs => by simp at habs⟩
    | upload text =>
      obtain ⟨ext, h1, _, h3⟩ :=
        foldl_addWordC_words cap s.words
          ((tokenize (text.map Char.toLower)).take
            (min (tokenize (text.map Char.toLower)).length
              (cap - s.words.length))) s
      rw [step_upload]
      refine ⟨ext, h1, fun t ht => (h3 t ht).1, ?_⟩
      intro text' heq t ht
      cases heq
      have htok : t ∈ tokenize (text.map Char.toLower) :=
        List.take_subset _ _ (h3 t ht).2
      obtain ⟨t₀, ht₀, hmap⟩ :=
        List.sublist_map_iff.mp (tokenize_sublist _ t htok)
      exact ⟨t₀, ht₀, hmap⟩
    | process w r =>
      exact ⟨[], by rw [step_process, processInput_fst_words]; simp, by simp,
        fun text habs => by simp at habs⟩
  refine ⟨hstep, ?_⟩
  intro cap s ops
  induction ops generalizing s with
  | nil => exact ⟨[], by simp [run]⟩
  | cons op ops ih =>
    obtain ⟨e1, h1, _, _⟩ := hstep cap s op
    obtain ⟨e2, h2⟩ := ih (step cap s op)
    refine ⟨e1 ++ e2, ?_⟩
    show (run cap (step cap s op) ops).words = _
    rw [h2, h1, List.append_assoc]

/-- C8 amended witness: one bulk upload of "a a" onto the empty registry
appends an extension whose tokens are absent from the starting registry and
lower-casings of source fragments; concretely the resulting registry is
`[a, a]`. -/
theorem registry_append_only_evolution_witness :
    (∃ ext, (step MAX_WORDS s0 (Op.upload aaChars)).words = s0.words ++ ext
        ∧ (∀ t ∈ ext, t ∉ s0.words)
        ∧ (∀ text, Op.upload aaChars = Op.upload text →
            ∀ t ∈ ext, ∃ t₀ : List Char, t₀.Sublist text ∧ t = t₀.map Char.toLower))
      ∧ (step MAX_WORDS s0 (Op.upload aaChars)).words = [['a'], ['a']] :=
  ⟨registry_append_only_evolution.1 MAX_WORDS s0 (Op.upload aaChars),
    by decide⟩

/-- C9: bulk-ingesting a source whose lower-cased word-boundary tokenization
yields `cap + k` pairwise-distinct tokens into an empty registry registers
exactly the first `cap` tokens, in source order, dropping the remaining
`k`. -/
theorem bulk_ingestion_registers_capacity_prefix (cap k : Nat)
    (text : List Char) (s : PState) (hempty : s.words = [])
    (hlen : (tokenize (text.map Char.toLower)).length = cap + k)
    (_hnd : (tokenize (text.map Char.toLower)).Nodup) :
    (handleFileUpload cap text s).words
      = (tokenize (text.map Char.toLower)).take cap := by
  show (((tokenize (text.map Char.toLower)).take
      (min (tokenize (text.map Char.toLower)).length
        (cap - s.words.length))).foldl
      (fun st t => addWordC cap s.words t st) s).words = _
  rw [hempty, hlen]
  simp only [List.length_nil, Nat.sub_zero]
  rw [Nat.min_eq_right (Nat.le_add_right cap k)]
  rcases Nat.eq_zero_or_pos cap with hc | hc
  · subst hc
    exact hempty
  · rw [foldl_addWordC_nil_captured cap hc _ s, hempty, List.nil_append]

/-- C9 witness: with capacity 3, ingesting the four distinct tokens
`x y z w` registers exactly `[x, y, z]`, in order, dropping `w`. -/
theorem bulk_ingestion_registers_capacity_prefix_witness :
    s0.words = []
      ∧ (tokenize (xyzwChars.map Char.toLower)).length = 3 + 1
      ∧ (tokenize (xyzwChars.map Char.toLower)).Nodup
      ∧ (handleFileUpload 3 xyzwChars s0).words
          = (tokenize (xyzwChars.map Char.toLower)).take 3
      ∧ (handleFileUpload 3 xyzwChars s0).words = [['x'], ['y'], ['z']] :=
  ⟨by decide, by decide, by decide,
    bulk_ingestion_registers_capacity_prefix 3 1 xyzwChars s0 (by decide)
      (by decide) (by decide),
    by decide⟩

end HCNP
